import Mathlib

/-!
Verification of the vector post-processing pipeline of imgToSvgIco.

The JavaScript sources are shallowly embedded: JS numbers are modelled as
exact rationals (ℚ), strings as Lean `String` / `List Char`, and the
regex-driven text scans are implemented as explicit character scanners with
the same matching semantics as the source regexes on the inputs considered.
Two idealizations, noted at each use site:
* `Math.sqrt` comparisons are translated through the strict monotonicity of
  the square root: for `a ≥ 0`, `sqrt a < t ↔ 0 < t ∧ a < t²` and
  `sqrt a > t ↔ t < 0 ∨ t² < a`, so the embedded code carries squared
  distances and compares them with these helpers;
* `Math.exp` (Gaussian path smoothing) has no exact rational value, so the
  functions that mention it take the weight function as an explicit
  parameter; every theorem about them holds for an arbitrary such function.
-/

namespace ImgToSvg

set_option maxRecDepth 20000 in
/-- JS `Math.round`: round half toward positive infinity. -/
def jsRound (q : ℚ) : ℤ := ⌊q + 1/2⌋

/-- Model of the JS comparison `Math.sqrt d2 < t` for `d2 ≥ 0`:
`sqrt` is strictly monotone and nonnegative, so the comparison holds iff
`0 < t ∧ d2 < t²`. -/
def sqrtLt (d2 t : ℚ) : Bool := decide (0 < t) && decide (d2 < t ^ 2)

/-- Model of the JS comparison `Math.sqrt d2 > t` for `d2 ≥ 0`:
holds iff `t < 0 ∨ t² < d2`. -/
def sqrtGt (d2 t : ℚ) : Bool := decide (t < 0) || decide (t ^ 2 < d2)

/-- JS whitespace characters occurring in this code base (`\s`). -/
def isWsChar (c : Char) : Bool := c = ' ' || c = '\t' || c = '\n' || c = '\r'

def isDigitChar (c : Char) : Bool := decide ('0' ≤ c) && decide (c ≤ '9')

def digitVal (c : Char) : ℕ := c.toNat - '0'.toNat

/-- Value of a string of decimal digits (JS `parseInt` on an all-digit string). -/
def digitsToNat (cs : List Char) : ℕ := cs.foldl (fun a c => a * 10 + digitVal c) 0

/-- JS `String.prototype.trim`. -/
def trimChars (cs : List Char) : List Char :=
  ((cs.dropWhile isWsChar).reverse.dropWhile isWsChar).reverse

/-- JS `parseFloat`: skip leading whitespace, optional sign, integer digits,
optional fraction digits; `none` models `NaN` (no digits at all).
Exponents and `Infinity` are not modelled; they occur in no input of this
development. -/
def parseFloatQ (cs0 : List Char) : Option ℚ :=
  let cs1 := cs0.dropWhile isWsChar
  let sgncs : ℚ × List Char :=
    match cs1 with
    | '-' :: rest => (-1, rest)
    | '+' :: rest => (1, rest)
    | _ => (1, cs1)
  let ip := sgncs.2.takeWhile isDigitChar
  let cs3 := sgncs.2.dropWhile isDigitChar
  let fp : List Char :=
    match cs3 with
    | '.' :: rest => rest.takeWhile isDigitChar
    | _ => []
  if ip.isEmpty && fp.isEmpty then none
  else some (sgncs.1 * ((digitsToNat ip : ℚ) + (digitsToNat fp : ℚ) / (10 : ℚ) ^ fp.length))

/-- JS truthiness fallback `v || fb` on a number `v` (`Option.none` models
`NaN`/`undefined`): `0`, `NaN` and `undefined` are falsy. -/
def jsOrQ : Option ℚ → ℚ → ℚ
  | some v, fb => if v = 0 then fb else v
  | none, fb => fb

/-- JS array access `coords[k]` (`none` for out of range or `NaN`). -/
def coordAt (coords : List (Option ℚ)) (k : ℕ) : Option ℚ := (coords.get? k).join

/-- Separator class of the coordinate-splitting regex `[\s,]+`. -/
def isCoordSep (c : Char) : Bool := isWsChar c || c = ','

/-- Maximal runs of characters satisfying `keep`, in order, skipping the
rest (fuelled; `fuel ≥ length` suffices). This is the shape of every
`match(/X+/g)`-style scan in the sources. -/
def runsAux (keep : Char → Bool) : ℕ → List Char → List (List Char)
  | 0, _ => []
  | _, [] => []
  | fuel+1, c :: rest =>
    if keep c then
      let tok := (c :: rest).takeWhile keep
      tok :: runsAux keep fuel ((c :: rest).drop tok.length)
    else runsAux keep fuel rest

/-- Splitting on `/[\s,]+/` followed by `filter(s => s)`: the maximal runs of
non-separator characters. -/
def splitCoordTokens (cs : List Char) : List (List Char) :=
  runsAux (fun c => !isCoordSep c) (cs.length + 1) cs

/-! ## PathParser (`parsePathData` / `pointsToPathData`, pathsimplify.js) -/

/-- Command letters of the chunking regex `[MmLlHhVvCcSsQqTtAaZz]`. -/
def isCmdChar (c : Char) : Bool :=
  c ∈ ['M','m','L','l','H','h','V','v','C','c','S','s','Q','q','T','t','A','a','Z','z']

/-- The chunking regex `/[cmd][^cmd]*/g`: each match is a command letter plus
the following non-command characters; text before the first letter is skipped. -/
def chunksAux : ℕ → List Char → List (Char × List Char)
  | 0, _ => []
  | _, [] => []
  | fuel+1, c :: rest =>
    if isCmdChar c then
      let body := rest.takeWhile (fun d => !isCmdChar d)
      (c, body) :: chunksAux fuel (rest.drop body.length)
    else chunksAux fuel rest

def cmdChunks (cs : List Char) : List (Char × List Char) := chunksAux (cs.length + 1) cs

inductive PTy
  | M
  | L
deriving DecidableEq, Repr

structure PathPoint where
  x : ℚ
  y : ℚ
  ty : PTy
deriving DecidableEq, Repr

/-- Bare point `{x, y}` (the smoothed/merged point records carry no command
tag and the serializer reads only `x` and `y`). -/
structure Pt where
  x : ℚ
  y : ℚ
deriving DecidableEq, Repr

def PathPoint.toPt (p : PathPoint) : Pt := ⟨p.x, p.y⟩

structure ParseSt where
  curX : ℚ
  curY : ℚ
  startX : ℚ
  startY : ℚ

/-- One step per command chunk, mirroring the `switch` of `parsePathData`.
Note the source reads an absolute coordinate as `coords[0] || currentX`,
so a coordinate equal to `0` (falsy in JS) falls back to the running cursor. -/
def runCmds : List (Char × List Char) → ParseSt → List PathPoint
  | [], _ => []
  | (ty, body) :: rest, st =>
    let isRel := ty = ty.toLower
    let coords := (splitCoordTokens body).map parseFloatQ
    match ty.toLower with
    | 'm' =>
      let nx := if isRel then st.curX + jsOrQ (coordAt coords 0) 0 else jsOrQ (coordAt coords 0) st.curX
      let ny := if isRel then st.curY + jsOrQ (coordAt coords 1) 0 else jsOrQ (coordAt coords 1) st.curY
      ⟨nx, ny, .M⟩ :: runCmds rest ⟨nx, ny, nx, ny⟩
    | 'l' =>
      let nx := if isRel then st.curX + jsOrQ (coordAt coords 0) 0 else jsOrQ (coordAt coords 0) st.curX
      let ny := if isRel then st.curY + jsOrQ (coordAt coords 1) 0 else jsOrQ (coordAt coords 1) st.curY
      ⟨nx, ny, .L⟩ :: runCmds rest ⟨nx, ny, st.startX, st.startY⟩
    | 'h' =>
      let nx := if isRel then st.curX + jsOrQ (coordAt coords 0) 0 else jsOrQ (coordAt coords 0) st.curX
      ⟨nx, st.curY, .L⟩ :: runCmds rest ⟨nx, st.curY, st.startX, st.startY⟩
    | 'v' =>
      let ny := if isRel then st.curY + jsOrQ (coordAt coords 0) 0 else jsOrQ (coordAt coords 0) st.curY
      ⟨st.curX, ny, .L⟩ :: runCmds rest ⟨st.curX, ny, st.startX, st.startY⟩
    | 'z' =>
      if st.curX ≠ st.startX ∨ st.curY ≠ st.startY then
        ⟨st.startX, st.startY, .L⟩ :: runCmds rest ⟨st.startX, st.startY, st.startX, st.startY⟩
      else runCmds rest st
    | _ =>
      if 2 ≤ coords.length then
        let e := coords.length - 2
        let nx := if isRel then st.curX + jsOrQ (coordAt coords e) 0 else jsOrQ (coordAt coords e) st.curX
        let ny := if isRel then st.curY + jsOrQ (coordAt coords (e+1)) 0 else jsOrQ (coordAt coords (e+1)) st.curY
        ⟨nx, ny, .L⟩ :: runCmds rest ⟨nx, ny, st.startX, st.startY⟩
      else runCmds rest st

def parsePathData (d : String) : List PathPoint :=
  runCmds (cmdChunks d.data) ⟨0, 0, 0, 0⟩

/-- The closed-path test `/[Zz]\s*$/.test(pathData.trim())`: after trimming,
the text matches iff its last character is `Z` or `z`. -/
def isClosedPath (d : String) : Bool :=
  match (trimChars d.data).getLast? with
  | some c => c = 'Z' || c = 'z'
  | none => false

/-- The `perpendicularDistance` of pathsimplify.js, carried as the squared
distance (the source returns `Math.sqrt` of this value; every use compares
it, which the `sqrtLt`/`sqrtGt` helpers translate). -/
def perpendicularDistanceSq (p a b : Pt) : ℚ :=
  let dx := b.x - a.x
  let dy := b.y - a.y
  if dx = 0 ∧ dy = 0 then (p.x - a.x) ^ 2 + (p.y - a.y) ^ 2
  else
    let t := max 0 (min 1 (((p.x - a.x) * dx + (p.y - a.y) * dy) / (dx * dx + dy * dy)))
    let projX := a.x + t * dx
    let projY := a.y + t * dy
    (p.x - projX) ^ 2 + (p.y - projY) ^ 2

/-- The maximum-distance scan of `douglasPeucker`: fold over `i = 1 .. n-2`,
keeping the squared distance and index of the strict maximum
(`distance > maxDistance`, initial `(0, 0)`). -/
def maxPerpSq (pts : List Pt) (a b : Pt) : ℚ × ℕ :=
  (List.range' 1 (pts.length - 2)).foldl
    (fun acc i =>
      if acc.1 < perpendicularDistanceSq (pts.getD i ⟨0, 0⟩) a b
      then (perpendicularDistanceSq (pts.getD i ⟨0, 0⟩) a b, i) else acc)
    (0, 0)

/-- The `douglasPeucker` recursion, fuelled: the JS recursion terminates whenever
`tolerance ≥ 0` within depth `points.length`, which the wrapper supplies
(for negative tolerances the JS code recurses forever on a degenerate split;
exhausted fuel returns the input unchanged). -/
def douglasPeuckerF : ℕ → List Pt → ℚ → List Pt
  | 0, pts, _ => pts
  | fuel+1, pts, tol =>
    if pts.length ≤ 2 then pts
    else
      if sqrtGt (maxPerpSq pts (pts.getD 0 ⟨0, 0⟩) (pts.getD (pts.length - 1) ⟨0, 0⟩)).1 tol then
        (douglasPeuckerF fuel
            (pts.take ((maxPerpSq pts (pts.getD 0 ⟨0, 0⟩)
              (pts.getD (pts.length - 1) ⟨0, 0⟩)).2 + 1)) tol).dropLast
          ++ douglasPeuckerF fuel
            (pts.drop ((maxPerpSq pts (pts.getD 0 ⟨0, 0⟩)
              (pts.getD (pts.length - 1) ⟨0, 0⟩)).2)) tol
      else [pts.getD 0 ⟨0, 0⟩, pts.getD (pts.length - 1) ⟨0, 0⟩]

def douglasPeucker (pts : List Pt) (tol : ℚ) : List Pt :=
  douglasPeuckerF pts.length pts tol

def digitChar (d : ℕ) : Char := Char.ofNat ('0'.toNat + d % 10)

def natToCharsAux : ℕ → ℕ → List Char → List Char
  | 0, _, acc => acc
  | _, 0, acc => acc
  | fuel+1, n, acc => natToCharsAux fuel (n / 10) (digitChar (n % 10) :: acc)

def natToChars (n : ℕ) : List Char :=
  if n = 0 then ['0'] else natToCharsAux (n + 1) n []

def fracDigitsAux : ℕ → ℕ → ℕ → List Char
  | 0, _, _ => []
  | _, 0, _ => []
  | fuel+1, r, d => digitChar (r * 10 / d) :: fracDigitsAux fuel (r * 10 % d) d

/-- Decimal rendering of a rational, as JS renders the corresponding number
(sign, integer digits, fractional digits while a remainder persists, capped
at 17 digits like a double's printed precision). Exactly matches JS output on
every terminating decimal of at most 17 fractional digits; no theorem in this
development evaluates it on other values. -/
def qToChars (q : ℚ) : List Char :=
  let an := q.num.natAbs
  let sign : List Char := if q.num < 0 then ['-'] else []
  let ip := natToChars (an / q.den)
  let rem := an % q.den
  sign ++ ip ++ (if rem = 0 then [] else '.' :: fracDigitsAux 17 rem q.den)

/-- Serializer `pointsToPathData`: `M x y`, then `L x y` per point, trailing `Z` iff closed. -/
def pointsToPathData (pts : List Pt) (closed : Bool) : String :=
  match pts with
  | [] => ""
  | p0 :: rest =>
    let headCs := 'M' :: ' ' :: (qToChars p0.x ++ ' ' :: qToChars p0.y)
    let body := rest.foldl
      (fun acc p => acc ++ ' ' :: 'L' :: ' ' :: (qToChars p.x ++ ' ' :: qToChars p.y)) headCs
    ⟨body ++ (if closed then [' ', 'Z'] else [])⟩

/-- Stage `simplifyPath`: guard on empty/blank text, parse, guard on short point
sequences, Douglas-Peucker, re-serialize. The parsed points carry an unused
command tag; the geometry passes read only `x`/`y`, hence the `toPt` map. -/
def simplifyPath (d : String) (tol : ℚ) : String :=
  if trimChars d.data = [] then d
  else
    let isClosed := isClosedPath d
    let points := parsePathData d
    if points.length ≤ 2 then d
    else pointsToPathData (douglasPeucker (points.map PathPoint.toPt) tol) isClosed

/-! ## PathSmoother (orchestrate.js) -/

/-- Gaussian `smoothPoint` (circular smoothing). The weight
`Math.exp(-(i*i) / (2*radius*radius))` is transcendental, so the weight
function is a parameter `expQ` applied to the rational exponent argument;
all theorems hold for every choice of `expQ`. Index arithmetic
`(index + i + n) % n` uses the mathematical remainder, which agrees with JS
whenever `index + i + n ≥ 0` (always, for the radii the caller produces). -/
def smoothPoint (expQ : ℚ → ℚ) (points : List Pt) (index : ℕ) (radius : ℕ) : Pt :=
  let n := points.length
  if n ≤ 2 then points.getD index ⟨0, 0⟩
  else
    let acc := (List.range (2 * radius + 1)).foldl
      (fun (acc : ℚ × ℚ × ℚ) k =>
        let i : ℤ := (k : ℤ) - (radius : ℤ)
        let idx := (((index : ℤ) + i + (n : ℤ)).emod n).toNat
        let w := expQ (-((i * i : ℤ) : ℚ) / (2 * (radius : ℚ) * (radius : ℚ)))
        let p := points.getD idx ⟨0, 0⟩
        (acc.1 + p.x * w, acc.2.1 + p.y * w, acc.2.2 + w))
      (0, 0, 0)
    ⟨acc.1 / acc.2.2, acc.2.1 / acc.2.2⟩

/-- Smoother `catmullRomSmooth`: for each point (circular neighbours), evaluate the
source's unhalved Catmull-Rom polynomial at `t = 0.5` and blend with the
original point. The source also computes `tension = 1 - smoothness`, never
used. -/
def catmullRomSmooth (points : List Pt) (smoothness : ℚ) : List Pt :=
  if points.length ≤ 2 then points
  else
    let n := points.length
    (List.range n).map fun i =>
      let p0 := points.getD ((i + n - 1) % n) ⟨0, 0⟩
      let p1 := points.getD i ⟨0, 0⟩
      let p2 := points.getD ((i + 1) % n) ⟨0, 0⟩
      let p3 := points.getD ((i + 2) % n) ⟨0, 0⟩
      let t : ℚ := 1/2
      let t2 := t * t
      let t3 := t2 * t
      let x := 2 * p1.x + (-p0.x + p2.x) * t + (2 * p0.x - 5 * p1.x + 4 * p2.x - p3.x) * t2
        + (-p0.x + 3 * p1.x - 3 * p2.x + p3.x) * t3
      let y := 2 * p1.y + (-p0.y + p2.y) * t + (2 * p0.y - 5 * p1.y + 4 * p2.y - p3.y) * t2
        + (-p0.y + 3 * p1.y - 3 * p2.y + p3.y) * t3
      ⟨p1.x * (1 - smoothness) + x * smoothness * (1/2),
       p1.y * (1 - smoothness) + y * smoothness * (1/2)⟩

/-- Uniform Catmull-Rom spline through `p1`, `p2` with neighbours `p0`, `p3`,
in the standard basis (leading `1/2` factor), stated from the spec's words
for comparison with the code's polynomial. -/
def catmullRomPointSpec (p0 p1 p2 p3 : Pt) (t : ℚ) : Pt :=
  ⟨(1/2) * (2 * p1.x + (-p0.x + p2.x) * t + (2 * p0.x - 5 * p1.x + 4 * p2.x - p3.x) * t ^ 2
      + (-p0.x + 3 * p1.x - 3 * p2.x + p3.x) * t ^ 3),
   (1/2) * (2 * p1.y + (-p0.y + p2.y) * t + (2 * p0.y - 5 * p1.y + 4 * p2.y - p3.y) * t ^ 2
      + (-p0.y + 3 * p1.y - 3 * p2.y + p3.y) * t ^ 3)⟩

/-- The Catmull-Rom spline value at the midpoint `t = 0.5` (spec wording). -/
def catmullRomMidpointSpec (p0 p1 p2 p3 : Pt) : Pt :=
  catmullRomPointSpec p0 p1 p2 p3 (1/2)

/-- Stage `smoothPath`: guards, parse, regime switch at smoothness `0.5`
(Gaussian below, Catmull-Rom at or above), re-serialize. -/
def smoothPath (expQ : ℚ → ℚ) (d : String) (smoothness : ℚ) : String :=
  if trimChars d.data = [] ∨ smoothness ≤ 0 then d
  else
    let points := (parsePathData d).map PathPoint.toPt
    if points.length ≤ 2 then d
    else
      let isClosed := isClosedPath d
      let smoothed :=
        if smoothness < 1/2 then
          let radius := max 1 (⌊smoothness * 10⌋.toNat)
          (List.range points.length).map fun i => smoothPoint expQ points i radius
        else catmullRomSmooth points smoothness
      pointsToPathData smoothed isClosed

/-! ## RegionFilter (remove-small-regions.js) -/

structure BBox where
  minX : ℚ
  minY : ℚ
  maxX : ℚ
  maxY : ℚ
  width : ℚ
  height : ℚ

def getBoundingBox (points : List Pt) : BBox :=
  match points with
  | [] => ⟨0, 0, 0, 0, 0, 0⟩
  | p :: _ =>
    let f := points.foldl
      (fun (acc : ℚ × ℚ × ℚ × ℚ) q =>
        (min acc.1 q.x, min acc.2.1 q.y, max acc.2.2.1 q.x, max acc.2.2.2 q.y))
      (p.x, p.y, p.x, p.y)
    ⟨f.1, f.2.1, f.2.2.1, f.2.2.2, f.2.2.1 - f.1, f.2.2.2 - f.2.1⟩

/-- Area `calculateArea` (shoelace, absolute value). -/
def calculateArea (points : List Pt) : ℚ :=
  if points.length < 3 then 0
  else
    |(List.range points.length).foldl
      (fun a i =>
        let j := (i + 1) % points.length
        a + (points.getD i ⟨0, 0⟩).x * (points.getD j ⟨0, 0⟩).y
          - (points.getD j ⟨0, 0⟩).x * (points.getD i ⟨0, 0⟩).y)
      0 / 2|

/-- Length `calculatePathLength`: sum of segment lengths plus a closing edge for
more than two points. Each length is `Math.sqrt` of a rational, so the
square-root function is a parameter applied to the squared length. -/
def calculatePathLength (sqrtQ : ℚ → ℚ) (points : List Pt) : ℚ :=
  if points.length < 2 then 0
  else
    let base := (List.range (points.length - 1)).foldl
      (fun a i =>
        let dx := (points.getD (i + 1) ⟨0, 0⟩).x - (points.getD i ⟨0, 0⟩).x
        let dy := (points.getD (i + 1) ⟨0, 0⟩).y - (points.getD i ⟨0, 0⟩).y
        a + sqrtQ (dx * dx + dy * dy))
      0
    if 2 < points.length then
      let dx := (points.getD 0 ⟨0, 0⟩).x - (points.getD (points.length - 1) ⟨0, 0⟩).x
      let dy := (points.getD 0 ⟨0, 0⟩).y - (points.getD (points.length - 1) ⟨0, 0⟩).y
      base + sqrtQ (dx * dx + dy * dy)
    else base

/-- The per-element replacement callback of `removeSmallRegions`: `matchText`
is the whole `<path …>` match, `d` its captured path data; unparsable data is
kept, otherwise the size in the given mode (`"area"`, `"length"`, default
bounding-box dimension, per the source's `switch`) is compared with the
threshold. -/
def removeSmallRegionsElement (sqrtQ : ℚ → ℚ) (threshold : ℚ) (mode : String)
    (matchText d : String) : String :=
  let points := (parsePathData d).map PathPoint.toPt
  if points.length = 0 then matchText
  else
    let size :=
      if mode = "area" then calculateArea points
      else if mode = "length" then calculatePathLength sqrtQ points
      else min (getBoundingBox points).width (getBoundingBox points).height
    if size < threshold then "" else matchText

/-! ## ColorQuantizer (colorquantize.js) -/

def isHexDigitChar (c : Char) : Bool :=
  isDigitChar c || (decide ('a' ≤ c) && decide (c ≤ 'f')) || (decide ('A' ≤ c) && decide (c ≤ 'F'))

def hexDigitVal (c : Char) : ℕ :=
  if isDigitChar c then digitVal c
  else if decide ('a' ≤ c) && decide (c ≤ 'f') then c.toNat - 'a'.toNat + 10
  else c.toNat - 'A'.toNat + 10

def hexToNat (cs : List Char) : ℕ := cs.foldl (fun a c => a * 16 + hexDigitVal c) 0

/-- Tests whether `needle` is an initial segment of `hay`. -/
def segStarts : List Char → List Char → Bool
  | [], _ => true
  | _ :: _, [] => false
  | a :: as, b :: bs => a = b && segStarts as bs

/-- Case-insensitive variant of `segStarts` (for regexes with the `i` flag). -/
def segStartsCI : List Char → List Char → Bool
  | [], _ => true
  | _ :: _, [] => false
  | a :: as, b :: bs => a.toLower = b.toLower && segStartsCI as bs

/-- Whether `needle` occurs as a contiguous segment anywhere in `hay`. -/
def containsSeg (needle hay : List Char) : Bool :=
  (List.range (hay.length + 1)).any fun i => segStarts needle (hay.drop i)

/-- Match of `/rgb\((\d+),\s*(\d+),\s*(\d+)\)/` anchored at the head of `cs`,
returning the three captured channel values. -/
def rgbAt (cs : List Char) : Option (ℕ × ℕ × ℕ) :=
  if segStarts ['r','g','b','('] cs then
    let t1 := cs.drop 4
    let d1 := t1.takeWhile isDigitChar
    if d1.isEmpty then none
    else
      match t1.drop d1.length with
      | ',' :: t2 =>
        let t2w := t2.dropWhile isWsChar
        let d2 := t2w.takeWhile isDigitChar
        if d2.isEmpty then none
        else
          match t2w.drop d2.length with
          | ',' :: t3 =>
            let t3w := t3.dropWhile isWsChar
            let d3 := t3w.takeWhile isDigitChar
            if d3.isEmpty then none
            else
              match t3w.drop d3.length with
              | ')' :: _ => some (digitsToNat d1, digitsToNat d2, digitsToNat d3)
              | _ => none
          | _ => none
      | _ => none
  else none

/-- First match of the rgb regex anywhere in the string (JS `String.match`
without the `g` flag scans left to right). -/
def findRgbAux : ℕ → List Char → Option (ℕ × ℕ × ℕ)
  | 0, _ => none
  | _, [] => none
  | fuel+1, c :: rest =>
    match rgbAt (c :: rest) with
    | some t => some t
    | none => findRgbAux fuel rest

def findRgbTriple (cs : List Char) : Option (ℕ × ℕ × ℕ) := findRgbAux (cs.length + 1) cs

/-- One channel of `quantizeColor`: `step = 256/levels` (exact rational in
the model, a double in JS), `Math.round(value/step)*step`, clamped by
`Math.min(255, Math.max(0, ·))`. -/
def quantizeChannel (v : ℕ) (levels : ℚ) : ℚ :=
  let step := 256 / levels
  min 255 (max 0 ((jsRound ((v : ℚ) / step) : ℚ) * step))

/-- Operation `quantizeColor`: parse an `rgb(r,g,b)` color (else return the input
unchanged), quantize each channel, re-serialize with `", "` separators. -/
def quantizeColor (color : String) (levels : ℚ) : String :=
  match findRgbTriple color.data with
  | none => color
  | some (r, g, b) =>
    ⟨"rgb(".data ++ qToChars (quantizeChannel r levels)
      ++ ',' :: ' ' :: qToChars (quantizeChannel g levels)
      ++ ',' :: ' ' :: qToChars (quantizeChannel b levels) ++ [')']⟩

/-- The color alternative `(rgb\([^)]+\)|#[0-9a-fA-F]{3,6})"` anchored at the
head of `cs`: returns the captured color token and the text after the closing
quote. A hex run of length outside `[3,6]` cannot be followed by the required
quote at any backtracking length, so it fails, as in the regex. -/
def colorTokenAt (cs : List Char) : Option (List Char × List Char) :=
  if segStarts ['r','g','b','('] cs then
    let inside := (cs.drop 4).takeWhile (fun c => c ≠ ')')
    if inside.isEmpty then none
    else
      match (cs.drop 4).drop inside.length with
      | ')' :: '"' :: rest => some ('r' :: 'g' :: 'b' :: '(' :: (inside ++ [')']), rest)
      | _ => none
  else
    match cs with
    | '#' :: t =>
      let hr := t.takeWhile isHexDigitChar
      if 3 ≤ hr.length ∧ hr.length ≤ 6 then
        match t.drop hr.length with
        | '"' :: rest => some ('#' :: hr, rest)
        | _ => none
      else none
    | _ => none

/-- The color-collection loop of `reduceColorCount`
(`/(?:fill|stroke)="(color)"/g` driven by `exec`): all captured color tokens
in match order. -/
def colorRefsAux : ℕ → List Char → List (List Char)
  | 0, _ => []
  | _, [] => []
  | fuel+1, c :: rest =>
    let cs := c :: rest
    let attempt : Option (List Char × List Char) :=
      if segStarts "fill=\"".data cs then colorTokenAt (cs.drop 6)
      else if segStarts "stroke=\"".data cs then colorTokenAt (cs.drop 8)
      else none
    match attempt with
    | some (tok, after) => tok :: colorRefsAux fuel after
    | none => colorRefsAux fuel rest

/-- First-seen deduplication (the `colorMap` bookkeeping of the source). -/
def dedupFirst : List (List Char) → List (List Char) → List (List Char)
  | [], _ => []
  | c :: rest, seen =>
    if c ∈ seen then dedupFirst rest seen else c :: dedupFirst rest (c :: seen)

def extractUniqueColors (cs : List Char) : List (List Char) :=
  dedupFirst (colorRefsAux (cs.length + 1) cs) []

/-- The repeated hex/rgb channel-parsing block of `reduceColorCount`.
Three-digit hex doubles each digit; otherwise the three 2-character slices
are parsed with `parseInt(…, 16)`. A slice that is empty or non-hex gives
`NaN` in JS, which then fails every distance comparison; this (and the `NaN`
poisoning of a group average, reachable only from 4- or 5-digit hex tokens,
which no claim exercises) is modelled as a `none` parse. -/
def parseColorChannels (color : List Char) : Option (ℕ × ℕ × ℕ) :=
  match color with
  | '#' :: hex =>
    if hex.length = 3 then
      match hex with
      | [a, b, c] => some (hexToNat [a, a], hexToNat [b, b], hexToNat [c, c])
      | _ => none
    else
      let s1 := hex.take 2
      let s2 := (hex.drop 2).take 2
      let s3 := (hex.drop 4).take 2
      if s1.length = 2 ∧ s2.length = 2 ∧ s3.length = 2 ∧ (s1 ++ s2 ++ s3).all isHexDigitChar then
        some (hexToNat s1, hexToNat s2, hexToNat s3)
      else none
  | _ =>
    if segStarts ['r','g','b'] color then
      match findRgbTriple color with
      | some t => some t
      | none => none
    else none

def colorDistSq (c1 c2 : ℕ × ℕ × ℕ) : ℚ :=
  ((c1.1 : ℚ) - c2.1) ^ 2 + ((c1.2.1 : ℚ) - c2.2.1) ^ 2 + ((c1.2.2 : ℚ) - c2.2.2) ^ 2

/-- Inner `j` loop of the grouping pass: scan the unprocessed later colors,
absorbing those whose distance to `c1` is below the threshold. -/
def groupScan (colors : List (List Char)) (c1 : ℕ × ℕ × ℕ) (threshold : ℚ) :
    List ℕ → List ℕ → List ℕ × List ℕ
  | [], processed => ([], processed)
  | j :: js, processed =>
    if j ∈ processed then groupScan colors c1 threshold js processed
    else
      match parseColorChannels (colors.getD j []) with
      | none => groupScan colors c1 threshold js processed
      | some c2 =>
        if sqrtLt (colorDistSq c1 c2) threshold then
          let r := groupScan colors c1 threshold js (j :: processed)
          (j :: r.1, r.2)
        else groupScan colors c1 threshold js processed

/-- Outer `i` loop of the grouping pass. A color whose own parse fails is
marked processed and contributes no group (`continue` before the push). -/
def buildGroups (colors : List (List Char)) (threshold : ℚ) :
    List ℕ → List ℕ → List (List ℕ)
  | [], _ => []
  | i :: is, processed =>
    if i ∈ processed then buildGroups colors threshold is processed
    else
      match parseColorChannels (colors.getD i []) with
      | none => buildGroups colors threshold is (i :: processed)
      | some c1 =>
        let r := groupScan colors c1 threshold
          (List.range' (i + 1) (colors.length - (i + 1))) (i :: processed)
        (i :: r.1) :: buildGroups colors threshold is r.2

/-- Arithmetic-mean color of a group: `Math.round(sum/length)` per channel,
serialized as `rgb(r,g,b)` without spaces. -/
def groupAverage (colors : List (List Char)) (group : List ℕ) : List Char :=
  let sums := group.foldl
    (fun (acc : ℕ × ℕ × ℕ) idx =>
      match parseColorChannels (colors.getD idx []) with
      | some (r, g, b) => (acc.1 + r, acc.2.1 + g, acc.2.2 + b)
      | none => acc)
    (0, 0, 0)
  let len := group.length
  "rgb(".data ++ natToChars (jsRound ((sums.1 : ℚ) / len)).toNat
    ++ ',' :: natToChars (jsRound ((sums.2.1 : ℚ) / len)).toNat
    ++ ',' :: natToChars (jsRound ((sums.2.2 : ℚ) / len)).toNat ++ [')']

/-- The `representativeColors` map in its JS `Map` insertion order. -/
def repColorMap (colors : List (List Char)) (groups : List (List ℕ)) :
    List (List Char × List Char) :=
  groups.foldr
    (fun g acc =>
      if g.isEmpty then acc
      else (g.map fun idx => (colors.getD idx [], groupAverage colors g)) ++ acc)
    []

/-- Global replacement of `(fill|stroke)="oldC"` by `attr="newC"`. -/
def replaceColorAux (oldC newC : List Char) : ℕ → List Char → List Char
  | 0, cs => cs
  | _, [] => []
  | fuel+1, c :: rest =>
    let cs := c :: rest
    let fillPat := "fill=\"".data ++ oldC ++ ['"']
    let strokePat := "stroke=\"".data ++ oldC ++ ['"']
    if segStarts fillPat cs then
      "fill=\"".data ++ newC ++ '"' :: replaceColorAux oldC newC fuel (cs.drop fillPat.length)
    else if segStarts strokePat cs then
      "stroke=\"".data ++ newC ++ '"' :: replaceColorAux oldC newC fuel (cs.drop strokePat.length)
    else c :: replaceColorAux oldC newC fuel rest

/-- Operation `reduceColorCount`: guard empty markup and `maxColors ∉ [2,256]`; extract
unique colors; no-op when within limit; greedy distance grouping with
threshold `255/maxColors·2`; replace every group member with the mean. -/
def reduceColorCount (svg : String) (maxColors : ℚ) : String :=
  if svg.data = [] ∨ maxColors < 2 ∨ 256 < maxColors then svg
  else
    let colors := extractUniqueColors svg.data
    if (colors.length : ℚ) ≤ maxColors then svg
    else
      let threshold := 255 / maxColors * 2
      let groups := buildGroups colors threshold (List.range colors.length) []
      let reps := repColorMap colors groups
      ⟨reps.foldl (fun cs p => replaceColorAux p.1 p.2 (cs.length + 1) cs) svg.data⟩

/-! ## PathMerger (pathmerge.js) -/

/-- First match of `/pat("([^"]+)")/`-style attribute regexes: scan for the
literal pattern (e.g. `fill="`) followed by a nonempty run of non-quote
characters and a closing quote, returning the captured value. -/
def findAttrValueAux (pat : List Char) : ℕ → List Char → Option (List Char)
  | 0, _ => none
  | _, [] => none
  | fuel+1, c :: rest =>
    let cs := c :: rest
    let attempt : Option (List Char) :=
      if segStarts pat cs then
        let v := (cs.drop pat.length).takeWhile (fun d => d ≠ '"')
        if v.isEmpty then none
        else
          match (cs.drop pat.length).drop v.length with
          | '"' :: _ => some v
          | _ => none
      else none
    match attempt with
    | some v => some v
    | none => findAttrValueAux pat fuel rest

/-- Helper `extractPathColor`: prefer the `fill` value, fall back to `stroke`. -/
def extractPathColor (el : List Char) : Option (List Char) :=
  match findAttrValueAux "fill=\"".data (el.length + 1) el with
  | some v => some v
  | none => findAttrValueAux "stroke=\"".data (el.length + 1) el

/-- Helper `extractPathData`: first `/d="([^"]+)"/` match. -/
def extractPathData (el : List Char) : Option (List Char) :=
  findAttrValueAux "d=\"".data (el.length + 1) el

/-- Character class of the `/[\d.]+/g` number-token scan. -/
def isNumTokChar (c : Char) : Bool := isDigitChar c || c = '.'

/-- Adjacency test `arePathsAdjacent`: last number pair of the first data against the first
number pair of the second, both within `0.1` per axis; any `NaN` comparison
is false, and null/empty data is not adjacent. -/
def arePathsAdjacent (pd1 pd2 : Option (List Char)) : Bool :=
  match pd1, pd2 with
  | some d1, some d2 =>
    if d1.isEmpty || d2.isEmpty then false
    else
      let points1 := runsAux isNumTokChar (d1.length + 1) d1
      if points1.length < 2 then false
      else
        let points2 := runsAux isNumTokChar (d2.length + 1) d2
        if points2.length < 2 then false
        else
          match parseFloatQ (points1.getD (points1.length - 2) []),
              parseFloatQ (points1.getD (points1.length - 1) []),
              parseFloatQ (points2.getD 0 []), parseFloatQ (points2.getD 1 []) with
          | some lx, some ly, some fx, some fy =>
            decide (|lx - fx| < 1/10) && decide (|ly - fy| < 1/10)
          | _, _, _, _ => false
  | _, _ => false

/-- The `replace(/\s*[Zz]\s*$/, '')` step on the trimmed head data: strips one final
`Z`/`z` together with the whitespace run before it. -/
def stripTrailZ (cs : List Char) : List Char :=
  let t := trimChars cs
  match t.reverse with
  | c :: rest =>
    if c = 'Z' ∨ c = 'z' then (rest.dropWhile isWsChar).reverse else t
  | [] => t

/-- Character class `[\d.\s,+-]` of the leading-move strip. -/
def isMoveBodyChar (c : Char) : Bool :=
  isDigitChar c || c = '.' || isWsChar c || c = ',' || c = '+' || c = '-'

/-- The `replace(/^\s*[Mm]\s*[\d.\s,+-]+/, '')` step on the trimmed tail data; the
body class requires at least one character, else nothing is stripped. -/
def stripLeadMove (cs : List Char) : List Char :=
  let t := trimChars cs
  match t with
  | c :: rest =>
    if c = 'M' ∨ c = 'm' then
      let r := rest.dropWhile isWsChar
      let body := r.takeWhile isMoveBodyChar
      if body.isEmpty then t else r.drop body.length
    else t
  | [] => t

/-- Concatenation `mergePathData`: head with trailing close stripped, tail with leading
move stripped, joined by a space (head alone if the tail becomes blank). -/
def mergePathData (pd1 pd2 : List Char) : List Char :=
  let path1 := stripTrailZ pd1
  let path2 := stripLeadMove pd2
  if trimChars path2 = [] then path1 else path1 ++ ' ' :: path2

def isWordChar (c : Char) : Bool := c.isAlpha || isDigitChar c || c = '_'

/-- The `/(\w+)="([^"]+)"/g` attribute scan of `parsePathElement`. -/
def attrScanAux : ℕ → List Char → List (List Char × List Char)
  | 0, _ => []
  | _, [] => []
  | fuel+1, c :: rest =>
    let cs := c :: rest
    let attempt : Option ((List Char × List Char) × List Char) :=
      if isWordChar c then
        let nm := cs.takeWhile isWordChar
        match cs.drop nm.length with
        | '=' :: '"' :: t =>
          let v := t.takeWhile (fun d => d ≠ '"')
          if v.isEmpty then none
          else
            match t.drop v.length with
            | '"' :: after => some ((nm, v), after)
            | _ => none
        | _ => none
      else none
    match attempt with
    | some (kv, after) => kv :: attrScanAux fuel after
    | none => attrScanAux fuel rest

/-- JS object assignment `attrs[k] = v`: first assignment fixes the key's
position, later ones update in place. (JS would iterate all-digit keys
first; no element in this development has an all-digit attribute name.) -/
def upsertAttr : List (List Char × List Char) → List Char → List Char →
    List (List Char × List Char)
  | [], k, v => [(k, v)]
  | (k0, v0) :: rest, k, v =>
    if k0 = k then (k0, v) :: rest else (k0, v0) :: upsertAttr rest k v

def parsePathElement (el : List Char) : List (List Char × List Char) :=
  (attrScanAux (el.length + 1) el).foldl (fun acc kv => upsertAttr acc kv.1 kv.2) []

def createPathElement (attrs : List (List Char × List Char)) : List Char :=
  "<path".data
    ++ attrs.foldl (fun acc kv => acc ++ ' ' :: (kv.1 ++ '=' :: '"' :: kv.2 ++ ['"'])) []
    ++ "/>".data

structure PathRec where
  html : List Char
  index : ℕ
  color : Option (List Char)
  pathData : Option (List Char)
  attrs : List (List Char × List Char)
deriving DecidableEq

def emptyPathRec : PathRec := ⟨[], 0, none, none, []⟩

/-- Length of the `/<path\s+[^>]*\/?>/i` match anchored at the head of `cs`
(if one exists): the literal `<path` (any case), one whitespace character,
then everything through the first `>`. -/
def pathMatchLen (cs : List Char) : Option ℕ :=
  if segStartsCI "<path".data cs then
    match cs.drop 5 with
    | c :: _ =>
      if isWsChar c then
        match (cs.drop 5).drop ((cs.drop 5).takeWhile (fun d => d ≠ '>')).length with
        | '>' :: _ => some (5 + ((cs.drop 5).takeWhile (fun d => d ≠ '>')).length + 1)
        | _ => none
      else none
    | [] => none
  else none

/-- The match anchored at the head of `cs`, as the pair (match, rest). -/
def pathMatchAt (cs : List Char) : Option (List Char × List Char) :=
  (pathMatchLen cs).map fun n => (cs.take n, cs.drop n)

/-- The `exec` loop over `/<path\s+[^>]*\/?>/gi`: the list of matches with
their indices, together with the residual text (the unmatched characters in
order — exactly what the source's index-surgery deletion loop leaves). -/
def scanPathsAux : ℕ → List Char → ℕ → List (ℕ × List Char) × List Char
  | 0, cs, _ => ([], cs)
  | _, [], _ => ([], [])
  | fuel+1, c :: rest, pos =>
    match pathMatchAt (c :: rest) with
    | some (m, after) =>
      let r := scanPathsAux fuel after (pos + m.length)
      ((pos, m) :: r.1, r.2)
    | none =>
      let r := scanPathsAux fuel rest (pos + 1)
      (r.1, c :: r.2)

def scanPaths (cs : List Char) : List (ℕ × List Char) × List Char :=
  scanPathsAux (cs.length + 1) cs 0

/-- Match of `/<svg[^>]*>/` (case sensitive) anchored at the head of `cs`. -/
def svgTagAt (cs : List Char) : Option (List Char) :=
  if segStarts "<svg".data cs then
    let inner := (cs.drop 4).takeWhile (fun d => d ≠ '>')
    match (cs.drop 4).drop inner.length with
    | '>' :: _ => some (cs.take (4 + inner.length + 1))
    | _ => none
  else none

def findSvgTagAux : ℕ → List Char → Option (List Char)
  | 0, _ => none
  | _, [] => none
  | fuel+1, c :: rest =>
    match svgTagAt (c :: rest) with
    | some t => some t
    | none => findSvgTagAux fuel rest

def findSvgTag (cs : List Char) : Option (List Char) := findSvgTagAux (cs.length + 1) cs

/-- Key `path.color || 'default'` (empty string and null are falsy). -/
def colorKey (c : Option (List Char)) : List Char :=
  match c with
  | some v => if v.isEmpty then "default".data else v
  | none => "default".data

/-- The `pathsByColor` bucket insertion, preserving first-seen key order. -/
def groupInsert (groups : List (List Char × List PathRec)) (k : List Char) (p : PathRec) :
    List (List Char × List PathRec) :=
  match groups with
  | [] => [(k, [p])]
  | (k0, ps) :: rest =>
    if k0 = k then (k0, ps ++ [p]) :: rest else (k0, ps) :: groupInsert rest k p

/-- Inner `for j` scan of the merge loop: the first unprocessed `j` adjacent
to the accumulator in either direction (forward checked first). -/
def findMergeJ (colorPaths : List PathRec) (processed : List ℕ) (cur : Option (List Char)) :
    List ℕ → Option (ℕ × Bool)
  | [] => none
  | j :: js =>
    if j ∈ processed then findMergeJ colorPaths processed cur js
    else
      let pj := (colorPaths.getD j emptyPathRec).pathData
      if arePathsAdjacent cur pj then some (j, true)
      else if arePathsAdjacent pj cur then some (j, false)
      else findMergeJ colorPaths processed cur js

/-- The `while (foundMore)` loop: absorb one adjacent path per round, update
`pathData`, `attrs.d` and regenerate `html`, until no round finds a match.
Each round marks one more index processed, so `fuel = length + 1` suffices. -/
def mergeLoop (colorPaths : List PathRec) : ℕ → PathRec → List ℕ → PathRec × List ℕ
  | 0, cur, processed => (cur, processed)
  | fuel+1, cur, processed =>
    match findMergeJ colorPaths processed cur.pathData (List.range colorPaths.length) with
    | none => (cur, processed)
    | some (j, fwd) =>
      let pj := (colorPaths.getD j emptyPathRec).pathData
      let newData :=
        if fwd then mergePathData (cur.pathData.getD []) (pj.getD [])
        else mergePathData (pj.getD []) (cur.pathData.getD [])
      let attrs := upsertAttr cur.attrs "d".data newData
      mergeLoop colorPaths fuel
        ⟨createPathElement attrs, cur.index, cur.color, some newData, attrs⟩
        (j :: processed)

/-- Outer `for i` loop over one color bucket. -/
def mergeGroupAux (colorPaths : List PathRec) : List ℕ → List ℕ → List PathRec
  | [], _ => []
  | i :: is, processed =>
    if i ∈ processed then mergeGroupAux colorPaths is processed
    else
      let r := mergeLoop colorPaths (colorPaths.length + 1)
        (colorPaths.getD i emptyPathRec) (i :: processed)
      r.1 :: mergeGroupAux colorPaths is r.2

def mergeGroup (colorPaths : List PathRec) : List PathRec :=
  mergeGroupAux colorPaths (List.range colorPaths.length) []

/-- The `PathRec` list built from the regex scan of the markup. -/
def pathRecsOf (cs : List Char) : List PathRec :=
  (scanPaths cs).1.map fun m =>
    ⟨m.2, m.1, extractPathColor m.2, extractPathData m.2, parsePathElement m.2⟩

/-- All merged paths, bucket by bucket in key insertion order. -/
def mergedPathsOf (cs : List Char) : List PathRec :=
  let groups := (pathRecsOf cs).foldl (fun gs p => groupInsert gs (colorKey p.color) p) []
  groups.foldr (fun g acc => mergeGroup g.2 ++ acc) []

/-- The source's removal loop: walk the matches from the last to the first,
splicing each out of the working string by its original index. -/
def deleteMatches (ms : List (ℕ × List Char)) (cs : List Char) : List Char :=
  ms.foldr (fun m acc => acc.take m.1 ++ acc.drop (m.1 + m.2.length)) cs

/-- Stage `mergeSVGPaths`: scan, bucket by color, greedily merge, delete every
match, then (only if an opening `<svg…>` tag matches somewhere) insert the
merged elements at character offset `tagMatch.length` of the deleted text. -/
def mergeSVGPaths (svg : String) : String :=
  if svg.data.isEmpty then svg
  else
    let ms := (scanPaths svg.data).1
    if ms.isEmpty then svg
    else
      let deleted := deleteMatches ms svg.data
      match findSvgTag svg.data with
      | some tag =>
        let pathStrings := (((mergedPathsOf svg.data).map PathRec.html).intersperse "\n  ".data).foldr (· ++ ·) []
        ⟨deleted.take tag.length ++ "\n  ".data ++ pathStrings ++ '\n' :: deleted.drop tag.length⟩
      | none => ⟨deleted⟩

/-! ## SubjectExtractor (subjectextract.js) -/

/-- RGBA pixel buffer (`ImageData`): row-major, 4 bytes per pixel. -/
structure ImageDataQ where
  width : ℕ
  height : ℕ
  data : List ℕ
deriving DecidableEq

structure SEOptions where
  threshold : ℚ
  detectEdges : Bool
  keepCorners : Bool

def px (img : ImageDataQ) (i : ℕ) : ℕ := img.data.getD i 0

/-- Corner RGB samples: four `sampleSize × sampleSize` blocks, with
`sampleSize = min(10, ⌊width·0.1⌋, ⌊height·0.1⌋)` (the float products
`width·0.1`, `width·0.15` floor to `width/10`, `width·3/20` for every size
arising here). -/
def cornerSamples (img : ImageDataQ) : List (ℕ × ℕ × ℕ) :=
  let w := img.width
  let h := img.height
  let ss := min 10 (min (w / 10) (h / 10))
  let at4 : ℕ → ℕ × ℕ × ℕ := fun i => (px img (4 * i), px img (4 * i + 1), px img (4 * i + 2))
  (List.range ss).flatMap fun y =>
    (List.range ss).flatMap fun x =>
      [at4 (y * w + x), at4 (y * w + (w - 1 - x)),
       at4 ((h - 1 - y) * w + x), at4 ((h - 1 - y) * w + (w - 1 - x))]

/-- Average corner color; all components stay `0` when there are no samples
(`keepCorners` false, or a degenerate image). -/
def avgBg (img : ImageDataQ) (keepCorners : Bool) : ℚ × ℚ × ℚ :=
  if keepCorners then
    let s := cornerSamples img
    if s.isEmpty then (0, 0, 0)
    else
      let sums := s.foldl (fun (a : ℕ × ℕ × ℕ) c => (a.1 + c.1, a.2.1 + c.2.1, a.2.2 + c.2.2))
        (0, 0, 0)
      ((sums.1 : ℚ) / s.length, (sums.2.1 : ℚ) / s.length, (sums.2.2 : ℚ) / s.length)
  else (0, 0, 0)

/-- First classification pass: background iff alpha `< 128`, or RGB distance
to the corner average below the threshold (`colorDistance … < threshold`
carried squared through `sqrtLt`). -/
def classifyBackground (img : ImageDataQ) (threshold : ℚ) (avg : ℚ × ℚ × ℚ) : List Bool :=
  (List.range (img.width * img.height)).map fun i =>
    let idx := 4 * i
    if px img (idx + 3) < 128 then true
    else
      sqrtLt (((px img idx : ℚ) - avg.1) ^ 2 + ((px img (idx + 1) : ℚ) - avg.2.1) ^ 2
        + ((px img (idx + 2) : ℚ) - avg.2.2) ^ 2) threshold

def grayAt (img : ImageDataQ) (i : ℕ) : ℚ :=
  ((px img (4 * i) + px img (4 * i + 1) + px img (4 * i + 2) : ℕ) : ℚ) / 3

/-- Assignment of `Math.sqrt m` (`m ≥ 0` rational) to a `Uint8Array` cell:
`ToUint8` truncates toward zero, then reduces mod 256, and
`⌊√m⌋ = Nat.sqrt ⌊m⌋` for `m ≥ 0`. -/
def uint8OfSqrt (m : ℚ) : ℕ := Nat.sqrt ⌊m⌋.toNat % 256

/-- Sobel magnitude map of the edge-detection pass (interior pixels only;
the one-pixel border stays `0`). -/
def edgeStrengthMap (img : ImageDataQ) : List ℕ :=
  let w := img.width
  let h := img.height
  (List.range (w * h)).map fun i =>
    let x := i % w
    let y := i / w
    if 1 ≤ x ∧ x + 1 < w ∧ 1 ≤ y ∧ y + 1 < h then
      let g : ℤ → ℤ → ℚ := fun dx dy => grayAt img (((y : ℤ) + dy) * w + (x : ℤ) + dx).toNat
      let gx := -g (-1) (-1) + g 1 (-1) - 2 * g (-1) 0 + 2 * g 1 0 - g (-1) 1 + g 1 1
      let gy := -g (-1) (-1) - 2 * g 0 (-1) - g 1 (-1) + g (-1) 1 + 2 * g 0 1 + g 1 1
      uint8OfSqrt (gx * gx + gy * gy)
    else 0

/-- Edge override: pixels with Sobel magnitude above the fixed threshold 30
are forced to foreground. -/
def applyEdgeOverride (bg : List Bool) (es : List ℕ) : List Bool :=
  (List.range bg.length).map fun i => if 30 < es.getD i 0 then false else bg.getD i false

/-- The stack-based `floodFill`: pop, bounds-check, skip visited or
non-background cells, else mark `visited` (and redundantly re-set
`isBackground`) and push the four neighbours. Fuel bounds the pop count;
`5·(w·h+1)` exceeds the maximum possible number of pushes. -/
def floodLoop (w h : ℕ) : ℕ → List (ℤ × ℤ) → List Bool → List Bool → List Bool × List Bool
  | 0, _, visited, isBg => (visited, isBg)
  | _+1, [], visited, isBg => (visited, isBg)
  | fuel+1, (x, y) :: stack, visited, isBg =>
    if x < 0 ∨ (w : ℤ) ≤ x ∨ y < 0 ∨ (h : ℤ) ≤ y then floodLoop w h fuel stack visited isBg
    else
      let idx := (y * w + x).toNat
      if visited.getD idx false ∨ ¬ isBg.getD idx false then
        floodLoop w h fuel stack visited isBg
      else
        floodLoop w h fuel
          ((x, y - 1) :: (x, y + 1) :: (x - 1, y) :: (x + 1, y) :: stack)
          (visited.set idx true) (isBg.set idx true)

/-- The corner-seeded flood-fill pass: seeds from four
`min(20, ⌊w·0.15⌋, ⌊h·0.15⌋)`-sized corner blocks, threading `(visited,
isBackground)` through the calls. -/
def floodFromCorners (img : ImageDataQ) (bg : List Bool) : List Bool × List Bool :=
  let w := img.width
  let h := img.height
  let ss := min 20 (min (w * 3 / 20) (h * 3 / 20))
  let fuel := 5 * (w * h + 1)
  (List.range ss).foldl
    (fun (st : List Bool × List Bool) (y : ℕ) =>
      (List.range ss).foldl
        (fun (st : List Bool × List Bool) (x : ℕ) =>
          let st1 := floodLoop w h fuel [((x : ℤ), (y : ℤ))] st.1 st.2
          let st2 := floodLoop w h fuel [(((w - 1 - x : ℕ) : ℤ), (y : ℤ))] st1.1 st1.2
          let st3 := floodLoop w h fuel [((x : ℤ), ((h - 1 - y : ℕ) : ℤ))] st2.1 st2.2
          floodLoop w h fuel [(((w - 1 - x : ℕ) : ℤ), ((h - 1 - y : ℕ) : ℤ))] st3.1 st3.2)
        st)
    (List.replicate (w * h) false, bg)

/-- Final pass: background pixels become `(0,0,0,0)`, others copy the source
pixel. Note the source reads `isBackground`, not the flood fill's `visited`. -/
def applyBackground (img : ImageDataQ) (bg : List Bool) : ImageDataQ :=
  ⟨img.width, img.height,
    (List.range (img.width * img.height)).flatMap fun i =>
      if bg.getD i false then [0, 0, 0, 0]
      else [px img (4 * i), px img (4 * i + 1), px img (4 * i + 2), px img (4 * i + 3)]⟩

/-- Stage `extractSubject`: corner average (if `keepCorners`), distance/alpha
classification, optional Sobel override, optional corner flood fill, then
the output pass over `isBackground`. -/
def extractSubject (img : ImageDataQ) (opts : SEOptions) : ImageDataQ :=
  let avg := avgBg img opts.keepCorners
  let bg1 := classifyBackground img opts.threshold avg
  let bg2 := if opts.detectEdges then applyEdgeOverride bg1 (edgeStrengthMap img) else bg1
  let bg3 := if opts.keepCorners then (floodFromCorners img bg2).2 else bg2
  applyBackground img bg3

/-! ## Concrete inputs used by the theorems -/

/-- Markup with ten path elements filled with ten nearby colors
`rgb(100,100,100) … rgb(109,100,100)` (channel mean `104.5`, rounded `105`). -/
def svgC1 : String :=
  "<svg><path d=\"M0 0\" fill=\"rgb(100,100,100)\"/><path d=\"M1 0\" fill=\"rgb(101,100,100)\"/><path d=\"M2 0\" fill=\"rgb(102,100,100)\"/><path d=\"M3 0\" fill=\"rgb(103,100,100)\"/><path d=\"M4 0\" fill=\"rgb(104,100,100)\"/><path d=\"M5 0\" fill=\"rgb(105,100,100)\"/><path d=\"M6 0\" fill=\"rgb(106,100,100)\"/><path d=\"M7 0\" fill=\"rgb(107,100,100)\"/><path d=\"M8 0\" fill=\"rgb(108,100,100)\"/><path d=\"M9 0\" fill=\"rgb(109,100,100)\"/></svg>"

/-- Markup `svgC1` with every fill replaced by the rounded mean color. -/
def svgC1collapsed : String :=
  "<svg><path d=\"M0 0\" fill=\"rgb(105,100,100)\"/><path d=\"M1 0\" fill=\"rgb(105,100,100)\"/><path d=\"M2 0\" fill=\"rgb(105,100,100)\"/><path d=\"M3 0\" fill=\"rgb(105,100,100)\"/><path d=\"M4 0\" fill=\"rgb(105,100,100)\"/><path d=\"M5 0\" fill=\"rgb(105,100,100)\"/><path d=\"M6 0\" fill=\"rgb(105,100,100)\"/><path d=\"M7 0\" fill=\"rgb(105,100,100)\"/><path d=\"M8 0\" fill=\"rgb(105,100,100)\"/><path d=\"M9 0\" fill=\"rgb(105,100,100)\"/></svg>"

/-- A 10×10 image: white everywhere, with a black ring around the white
center pixel `(5,5)` (index 55). The center matches the corner background
color exactly but is not 4-connected to any corner through background
pixels. -/
def imgC2 : ImageDataQ :=
  ⟨10, 10, (List.range 100).flatMap fun i =>
    let x := i % 10
    let y := i / 10
    if (4 ≤ x ∧ x ≤ 6 ∧ 4 ≤ y ∧ y ≤ 6) ∧ ¬(x = 5 ∧ y = 5) then [0, 0, 0, 255]
    else [255, 255, 255, 255]⟩

def ptsC5 : List Pt := [⟨0, 0⟩, ⟨2, 0⟩, ⟨0, 2⟩]

/-! ## Claim theorems -/

/-- C7: parsing the exact path text `M0 0 L10 0 L10 10 L0 10 Z` yields
exactly 5 points, the last being the synthetic close point `(0,0)`, and the
closed-path detection on that text reports `closed = true`. -/
theorem parsePathData_scenarioA :
    (parsePathData "M0 0 L10 0 L10 10 L0 10 Z").length = 5
    ∧ (parsePathData "M0 0 L10 0 L10 10 L0 10 Z").getLast? = some ⟨0, 0, PTy.L⟩
    ∧ isClosedPath "M0 0 L10 0 L10 10 L0 10 Z" = true := by
  refine ⟨?_, ?_, ?_⟩ <;> with_unfolding_all rfl

/-- C3: the parser reads an absolute coordinate as `coords[k] || current`,
and `0` is falsy in JS, so the absolute command `L 0 10` after `M 5 7`
leaves the cursor's x at 5 and emits `(5, 10)` instead of `(0, 10)` — the
code contradicts SVG `L x y` semantics exactly at zero coordinates. -/
theorem parsePathData_absolute_zero_falls_back :
    parsePathData "M 5 7 L 0 10" = [⟨5, 7, PTy.M⟩, ⟨5, 10, PTy.L⟩] := by
  with_unfolding_all rfl

/-- C8: two path elements with identical fill `#ff0000` and data
`M0 0 L10 0` / `M10 0 L20 0` merge into a single path element whose data is
`M0 0 L10 0 L20 0` (head's data, tail's data appended after stripping the
tail's leading move command). -/
theorem mergeSVGPaths_scenarioB :
    mergeSVGPaths
        "<svg><path d=\"M0 0 L10 0\" fill=\"#ff0000\"/><path d=\"M10 0 L20 0\" fill=\"#ff0000\"/></svg>"
      = "<svg>\n  <path d=\"M0 0 L10 0 L20 0\" fill=\"#ff0000\"/>\n</svg>" := by
  with_unfolding_all rfl

set_option maxRecDepth 40000 in
/-- C1 (counterexample): with `maxColors = 1` the guard
`maxColors < 2 || maxColors > 256` makes `reduceColorCount` the identity, so
the ten nearby fill colors of `svgC1` are left distinct (ten unique colors),
not collapsed to one shared averaged color as the claim states. -/
theorem reduceColorCount_maxColorsOne_identity :
    reduceColorCount svgC1 1 = svgC1
    ∧ (extractUniqueColors (reduceColorCount svgC1 1).data).length = 10 := by
  refine ⟨?_, ?_⟩ <;> with_unfolding_all rfl

set_option maxRecDepth 60000 in
/-- C1 (amended): `maxColors = 1` lies outside the accepted `[2,256]` range,
so the call returns the markup unchanged; with the minimal accepted
`maxColors = 2` all ten fills collapse to the single rounded arithmetic-mean
color `rgb(105,100,100)`. -/
theorem reduceColorCount_guard_and_minimal_collapse :
    reduceColorCount svgC1 1 = svgC1
    ∧ reduceColorCount svgC1 2 = svgC1collapsed
    ∧ extractUniqueColors svgC1collapsed.data = ["rgb(105,100,100)".data] := by
  refine ⟨?_, ?_, ?_⟩ <;> with_unfolding_all rfl

set_option maxRecDepth 200000 in
/-- C2: on `imgC2` with `threshold = 30`, `detectEdges = false`,
`keepCorners = true`, the center pixel (index 55) is classified background by
the corner-color pass, is NOT reached by the corner-seeded flood fill
(`visited = false`), yet the output still erases it to `(0,0,0,0)` although
its source alpha is 255 — the final pass reads `isBackground`, never the
flood fill's `visited`, so the connectivity restriction the claim (and the
code's own comment "remove connected background regions") describes has no
effect. -/
theorem extractSubject_erases_disconnected_background :
    ((extractSubject imgC2 ⟨30, false, true⟩).data.drop (4 * 55)).take 4 = [0, 0, 0, 0]
    ∧ imgC2.data.getD (4 * 55 + 3) 0 = 255
    ∧ (floodFromCorners imgC2 (classifyBackground imgC2 30 (avgBg imgC2 true))).1.getD 55 false
        = false
    ∧ (classifyBackground imgC2 30 (avgBg imgC2 true)).getD 55 false = true := by
  refine ⟨?_, ?_, ?_, ?_⟩ <;> with_unfolding_all rfl

set_option maxRecDepth 20000 in
/-- C10 (counterexample): on markup whose opening `<svg>` tag is not at the
very start, the reinsertion offset (`svgMatch[0].length`, the tag's LENGTH,
not its end position) lands inside other text: the single path element is
spliced into the middle of the `<svg…>` tag, and the output does not even
contain an intact opening `<svg>` tag — refuting "reinserts only immediately
after the opening `<svg>` tag". -/
theorem mergeSVGPaths_insert_offset_counterexample :
    mergeSVGPaths "ab<svg></svg><path q=\"1\"/>" = "ab<sv\n  <path q=\"1\"/>\ng></svg>"
    ∧ containsSeg "<svg>".data (mergeSVGPaths "ab<svg></svg><path q=\"1\"/>").data = false := by
  refine ⟨?_, ?_⟩ <;> with_unfolding_all rfl

/-- C5 (counterexample): with the genuine Catmull-Rom spline value `M` at
`t = 0.5` (standard basis with its 1/2 factor), the claimed blend
`original·(1-s) + M·s·0.5` does NOT reproduce the code's output already at
`s = 1`, `i = 0` on `ptsC5`: the code produces the spline midpoint itself,
the claimed formula only half of it. -/
theorem catmullRomSmooth_halved_formula_fails :
    (catmullRomSmooth ptsC5 1).getD 0 ⟨0, 0⟩ ≠
      Pt.mk
        ((ptsC5.getD 0 ⟨0, 0⟩).x * (1 - 1)
          + (catmullRomMidpointSpec (ptsC5.getD 2 ⟨0, 0⟩) (ptsC5.getD 0 ⟨0, 0⟩)
              (ptsC5.getD 1 ⟨0, 0⟩) (ptsC5.getD 2 ⟨0, 0⟩)).x * 1 * (1/2))
        ((ptsC5.getD 0 ⟨0, 0⟩).y * (1 - 1)
          + (catmullRomMidpointSpec (ptsC5.getD 2 ⟨0, 0⟩) (ptsC5.getD 0 ⟨0, 0⟩)
              (ptsC5.getD 1 ⟨0, 0⟩) (ptsC5.getD 2 ⟨0, 0⟩)).y * 1 * (1/2)) := by
  with_unfolding_all decide

/-- C4 (counterexample): at `levels = 16` (where `step = 256/16 = 16` and
`⌊256/levels⌋ = 16`) the channel value 255 quantizes to
`min(255, 16·16) = 255`, which is not an integer multiple of 16 — the clamp
already breaks the claimed multiple-of-`⌊256/levels⌋` property; string-level,
`quantizeColor "rgb(255,0,0)" 16 = "rgb(255, 0, 0)"`. -/
theorem quantizeChannel_not_multiple_of_floor_step :
    quantizeColor "rgb(255,0,0)" 16 = "rgb(255, 0, 0)"
    ∧ quantizeChannel 255 16 = 255
    ∧ ¬ ∃ m : ℕ, quantizeChannel 255 16 = (m : ℚ) * ((⌊(256 : ℚ) / 16⌋ : ℤ) : ℚ) := by
  refine ⟨by with_unfolding_all rfl, by with_unfolding_all rfl, ?_⟩
  rintro ⟨m, hm⟩
  rw [show quantizeChannel 255 16 = 255 by with_unfolding_all rfl,
    show ((⌊(256 : ℚ) / 16⌋ : ℤ) : ℚ) = 16 by with_unfolding_all rfl] at hm
  have h : (255 : ℕ) = m * 16 := by exact_mod_cast hm
  omega

/-- C4 (amended): for any channel value `v ≤ 255` and `levels ∈ [2,256]`,
the quantized channel is `min 255 (k · (256/levels))` for some `k : ℕ` — a
multiple of the exact rational step `256/levels` (not of `⌊256/levels⌋`)
unless the clamp to 255 fires — and always lies in `[0, 255]`. -/
theorem quantizeChannel_rational_step_clamped (v : ℕ) (levels : ℚ)
    (hv : v ≤ 255) (h2 : 2 ≤ levels) (h8 : levels ≤ 256) :
    (∃ k : ℕ, quantizeChannel v levels = min 255 ((k : ℚ) * (256 / levels)))
    ∧ 0 ≤ quantizeChannel v levels ∧ quantizeChannel v levels ≤ 255 := by
  have hl : (0 : ℚ) < levels := lt_of_lt_of_le two_pos h2
  have hstep : (0 : ℚ) < 256 / levels := by positivity
  have hvq : (0 : ℚ) ≤ (v : ℚ) / (256 / levels) := by positivity
  have hround : (0 : ℤ) ≤ jsRound ((v : ℚ) / (256 / levels)) := by
    unfold jsRound
    exact Int.floor_nonneg.mpr (by linarith)
  have hcast : ((jsRound ((v : ℚ) / (256 / levels))).toNat : ℚ)
      = ((jsRound ((v : ℚ) / (256 / levels)) : ℤ) : ℚ) := by
    exact_mod_cast Int.toNat_of_nonneg hround
  have hq : quantizeChannel v levels
      = min 255 (((jsRound ((v : ℚ) / (256 / levels)) : ℤ) : ℚ) * (256 / levels)) := by
    simp only [quantizeChannel]
    rw [max_eq_right (mul_nonneg (by exact_mod_cast hround) hstep.le)]
  refine ⟨⟨(jsRound ((v : ℚ) / (256 / levels))).toNat, ?_⟩, ?_, ?_⟩
  · rw [hq, hcast]
  · rw [hq]
    exact le_min (by norm_num) (mul_nonneg (by exact_mod_cast hround) hstep.le)
  · rw [hq]
    exact min_le_left _ _

/-- C4 (witness): the amended statement instantiated at `v = 100`,
`levels = 3`. -/
theorem quantizeChannel_rational_step_clamped_witness :
    ((100 : ℕ) ≤ 255 ∧ (2 : ℚ) ≤ 3 ∧ (3 : ℚ) ≤ 256)
    ∧ ((∃ k : ℕ, quantizeChannel 100 3 = min 255 ((k : ℚ) * (256 / 3)))
       ∧ 0 ≤ quantizeChannel 100 3 ∧ quantizeChannel 100 3 ≤ 255) :=
  ⟨⟨by decide, by norm_num, by norm_num⟩,
   quantizeChannel_rational_step_clamped 100 3 (by decide) (by norm_num) (by norm_num)⟩

/-- C9: a path element whose `d` attribute parses to an empty point sequence
is left untouched by the small-region filter's per-element callback (any
mode, any threshold), by the simplifier, and by the smoother — none of them
removes it or fails. -/
theorem unparsable_path_element_kept (d m : String) (sq w : ℚ → ℚ)
    (t tol s : ℚ) (mode : String) (hp : parsePathData d = []) (ht : 0 < t) :
    removeSmallRegionsElement sq t mode m d = m
    ∧ simplifyPath d tol = d
    ∧ smoothPath w d s = d := by
  refine ⟨?_, ?_, ?_⟩
  · unfold removeSmallRegionsElement
    rw [hp]
    simp
  · unfold simplifyPath
    rw [hp]
    simp
  · unfold smoothPath
    rw [hp]
    simp

/-- C9 (witness): instantiated at the unparsable path data `"x"` inside the
element `<path d="x"/>`, with threshold 1, area mode. -/
theorem unparsable_path_element_kept_witness :
    (parsePathData "x" = [] ∧ (0 : ℚ) < 1)
    ∧ (removeSmallRegionsElement id 1 "area" "<path d=\"x\"/>" "x" = "<path d=\"x\"/>"
       ∧ simplifyPath "x" 1 = "x"
       ∧ smoothPath id "x" 1 = "x") :=
  ⟨⟨by with_unfolding_all rfl, by norm_num⟩,
   unparsable_path_element_kept "x" "<path d=\"x\"/>" id id 1 1 1 "area"
     (by with_unfolding_all rfl) (by norm_num)⟩

/-- C5 (amended): for at least 3 points and any smoothness `s ≥ 0.5`, each
output point of the Catmull-Rom smoother equals
`original·(1-s) + M·s` componentwise — where `M` is the genuine Catmull-Rom
spline value at `t = 0.5` (standard basis with its 1/2 factor) computed from
the point and its circular neighbours. The claim's extra `·0.5` factor is
absorbed by the code's unhalved polynomial. -/
theorem catmullRomSmooth_blends_spec_midpoint (pts : List Pt) (s : ℚ)
    (h3 : 3 ≤ pts.length) (hs : 1/2 ≤ s) (i : ℕ) (hi : i < pts.length) :
    (catmullRomSmooth pts s).getD i ⟨0, 0⟩ =
      Pt.mk
        ((pts.getD i ⟨0, 0⟩).x * (1 - s)
          + (catmullRomMidpointSpec (pts.getD ((i + pts.length - 1) % pts.length) ⟨0, 0⟩)
              (pts.getD i ⟨0, 0⟩) (pts.getD ((i + 1) % pts.length) ⟨0, 0⟩)
              (pts.getD ((i + 2) % pts.length) ⟨0, 0⟩)).x * s)
        ((pts.getD i ⟨0, 0⟩).y * (1 - s)
          + (catmullRomMidpointSpec (pts.getD ((i + pts.length - 1) % pts.length) ⟨0, 0⟩)
              (pts.getD i ⟨0, 0⟩) (pts.getD ((i + 1) % pts.length) ⟨0, 0⟩)
              (pts.getD ((i + 2) % pts.length) ⟨0, 0⟩)).y * s) := by
  simp only [catmullRomSmooth]
  rw [if_neg (by omega)]
  rw [List.getD_eq_getElem?_getD, List.getElem?_map, List.getElem?_range hi]
  simp only [Option.map_some', Option.getD_some, catmullRomMidpointSpec, catmullRomPointSpec]
  refine congrArg₂ Pt.mk ?_ ?_ <;> ring

/-- C5 (witness): the amended statement instantiated on `ptsC5` with
`s = 1`, `i = 0`, where both sides evaluate to `(9/8, -1/4)`. -/
theorem catmullRomSmooth_blends_spec_midpoint_witness :
    (3 ≤ ptsC5.length ∧ (1 : ℚ)/2 ≤ 1 ∧ 0 < ptsC5.length)
    ∧ (catmullRomSmooth ptsC5 1).getD 0 ⟨0, 0⟩ =
      Pt.mk
        ((ptsC5.getD 0 ⟨0, 0⟩).x * (1 - 1)
          + (catmullRomMidpointSpec (ptsC5.getD ((0 + ptsC5.length - 1) % ptsC5.length) ⟨0, 0⟩)
              (ptsC5.getD 0 ⟨0, 0⟩) (ptsC5.getD ((0 + 1) % ptsC5.length) ⟨0, 0⟩)
              (ptsC5.getD ((0 + 2) % ptsC5.length) ⟨0, 0⟩)).x * 1)
        ((ptsC5.getD 0 ⟨0, 0⟩).y * (1 - 1)
          + (catmullRomMidpointSpec (ptsC5.getD ((0 + ptsC5.length - 1) % ptsC5.length) ⟨0, 0⟩)
              (ptsC5.getD 0 ⟨0, 0⟩) (ptsC5.getD ((0 + 1) % ptsC5.length) ⟨0, 0⟩)
              (ptsC5.getD ((0 + 2) % ptsC5.length) ⟨0, 0⟩)).y * 1) :=
  ⟨⟨by decide, by norm_num, by decide⟩,
   catmullRomSmooth_blends_spec_midpoint ptsC5 1 (by decide) (by norm_num) 0 (by decide)⟩

/-- Auxiliary: the index component of the strict-max scan is either the
initial index or one of the scanned indices. -/
theorem foldl_maxscan_mem (f : ℕ → ℚ) :
    ∀ (l : List ℕ) (acc : ℚ × ℕ),
      (l.foldl (fun acc i => if acc.1 < f i then (f i, i) else acc) acc).2 = acc.2
      ∨ (l.foldl (fun acc i => if acc.1 < f i then (f i, i) else acc) acc).2 ∈ l := by
  intro l
  induction l with
  | nil => exact fun _ => Or.inl rfl
  | cons x xs ih =>
    intro acc
    rw [List.foldl_cons]
    rcases ih (if acc.1 < f x then (f x, x) else acc) with h | h
    · rw [h]
      by_cases hc : acc.1 < f x
      · rw [if_pos hc]
        exact Or.inr (List.mem_cons_self x xs)
      · rw [if_neg hc]
        exact Or.inl rfl
    · exact Or.inr (List.mem_cons_of_mem x h)

/-- The scanned maximum index is 0 or lies in `[1, pts.length - 2]`. -/
theorem maxPerpSq_idx_bounds (pts : List Pt) (a b : Pt) :
    (maxPerpSq pts a b).2 = 0
    ∨ (1 ≤ (maxPerpSq pts a b).2 ∧ (maxPerpSq pts a b).2 ≤ pts.length - 2) := by
  rcases foldl_maxscan_mem (fun i => perpendicularDistanceSq (pts.getD i ⟨0, 0⟩) a b)
      (List.range' 1 (pts.length - 2)) (0, 0) with h | h
  · exact Or.inl h
  · right
    have hmem : (maxPerpSq pts a b).2 ∈ List.range' 1 (pts.length - 2) := h
    rw [List.mem_range'] at hmem
    obtain ⟨i, hi, heq⟩ := hmem
    omega

theorem douglasPeuckerF_short (fuel : ℕ) (pts : List Pt) (tol : ℚ) (h : pts.length ≤ 2) :
    douglasPeuckerF fuel pts tol = pts := by
  cases fuel with
  | zero => rfl
  | succ fuel =>
    show (if pts.length ≤ 2 then pts else _) = pts
    rw [if_pos h]

theorem head?_take_succ {α : Type} (l : List α) (n : ℕ) : (l.take (n + 1)).head? = l.head? := by
  cases l <;> rfl

theorem head?_dropLast_of_two_le {α : Type} (l : List α) (h : 2 ≤ l.length) :
    l.dropLast.head? = l.head? := by
  rcases l with _ | ⟨a, _ | ⟨b, t⟩⟩
  · simp at h
  · simp at h
  · rfl

theorem getLast?_eq_getD {α : Type} (l : List α) (d : α) (h : l ≠ []) :
    l.getLast? = some (l.getD (l.length - 1) d) := by
  have hlt : l.length - 1 < l.length := by
    have := List.length_pos.mpr h
    omega
  rw [List.getLast?_eq_getElem?, List.getD_eq_getElem?_getD, List.getElem?_eq_getElem hlt]
  rfl

theorem getLast?_drop_eq {α : Type} (l : List α) (k : ℕ) (h : k < l.length) :
    (l.drop k).getLast? = l.getLast? := by
  have hne : l.drop k ≠ [] := by
    apply List.ne_nil_of_length_pos
    rw [List.length_drop]
    omega
  obtain ⟨x, hx⟩ : ∃ x, (l.drop k).getLast? = some x := by
    cases hc : (l.drop k).getLast? with
    | none => exact absurd (List.getLast?_eq_none_iff.mp hc) hne
    | some x => exact ⟨x, rfl⟩
  conv_rhs => rw [← List.take_append_drop k l]
  rw [List.getLast?_append, hx]
  rfl

/-- Endpoint preservation for the fuelled Douglas-Peucker recursion, plus
the facts needed for the induction: the output is nonempty, and has at least
two points whenever the input does. -/
theorem douglasPeuckerF_endpoints :
    ∀ (fuel : ℕ) (pts : List Pt) (tol : ℚ), pts ≠ [] →
      douglasPeuckerF fuel pts tol ≠ []
      ∧ (douglasPeuckerF fuel pts tol).head? = pts.head?
      ∧ (douglasPeuckerF fuel pts tol).getLast? = pts.getLast?
      ∧ (2 ≤ pts.length → 2 ≤ (douglasPeuckerF fuel pts tol).length) := by
  intro fuel
  induction fuel with
  | zero =>
    intro pts tol h
    exact ⟨h, rfl, rfl, fun h2 => h2⟩
  | succ fuel ih =>
    intro pts tol hne
    by_cases hlen : pts.length ≤ 2
    · rw [douglasPeuckerF_short (fuel + 1) pts tol hlen]
      exact ⟨hne, rfl, rfl, fun h2 => h2⟩
    · push_neg at hlen
      have h3 : 3 ≤ pts.length := hlen
      have hstep : douglasPeuckerF (fuel + 1) pts tol =
          if sqrtGt (maxPerpSq pts (pts.getD 0 ⟨0, 0⟩)
              (pts.getD (pts.length - 1) ⟨0, 0⟩)).1 tol then
            (douglasPeuckerF fuel
                (pts.take ((maxPerpSq pts (pts.getD 0 ⟨0, 0⟩)
                  (pts.getD (pts.length - 1) ⟨0, 0⟩)).2 + 1)) tol).dropLast
              ++ douglasPeuckerF fuel
                (pts.drop ((maxPerpSq pts (pts.getD 0 ⟨0, 0⟩)
                  (pts.getD (pts.length - 1) ⟨0, 0⟩)).2)) tol
          else [pts.getD 0 ⟨0, 0⟩, pts.getD (pts.length - 1) ⟨0, 0⟩] := by
        show (if pts.length ≤ 2 then pts else _) = _
        rw [if_neg (by omega)]
      rw [hstep]
      by_cases hgt : sqrtGt (maxPerpSq pts (pts.getD 0 ⟨0, 0⟩)
          (pts.getD (pts.length - 1) ⟨0, 0⟩)).1 tol = true
      · rw [if_pos hgt]
        have hbounds := maxPerpSq_idx_bounds pts (pts.getD 0 ⟨0, 0⟩)
          (pts.getD (pts.length - 1) ⟨0, 0⟩)
        generalize hK : (maxPerpSq pts (pts.getD 0 ⟨0, 0⟩)
          (pts.getD (pts.length - 1) ⟨0, 0⟩)).2 = k
        rw [hK] at hbounds
        rcases hbounds with h0 | ⟨hk1, hk2⟩
        · subst h0
          obtain ⟨p, t, rfl⟩ : ∃ p t, pts = p :: t := by
            cases pts
            · exact absurd rfl hne
            · exact ⟨_, _, rfl⟩
          rw [show ((p :: t).take (0 + 1)) = [p] from rfl]
          rw [douglasPeuckerF_short fuel [p] tol (by simp)]
          rw [show ([p] : List Pt).dropLast = [] from rfl, List.nil_append]
          rw [show ((p :: t).drop 0) = p :: t from rfl]
          exact ih (p :: t) tol hne
        · have htake_ne : pts.take (k + 1) ≠ [] := by
            apply List.ne_nil_of_length_pos
            rw [List.length_take]
            omega
          have htake_len : (pts.take (k + 1)).length = k + 1 := by
            rw [List.length_take]
            omega
          have hdrop_ne : pts.drop k ≠ [] := by
            apply List.ne_nil_of_length_pos
            rw [List.length_drop]
            omega
          obtain ⟨hLne, hLhead, hLlast, hLlen⟩ := ih (pts.take (k + 1)) tol htake_ne
          obtain ⟨hRne, hRhead, hRlast, hRlen⟩ := ih (pts.drop k) tol hdrop_ne
          have hL2 : 2 ≤ (douglasPeuckerF fuel (pts.take (k + 1)) tol).length := by
            apply hLlen
            rw [htake_len]
            omega
          have hR2 : 2 ≤ (douglasPeuckerF fuel (pts.drop k) tol).length := by
            apply hRlen
            rw [List.length_drop]
            omega
          refine ⟨?_, ?_, ?_, fun _ => ?_⟩
          · apply List.ne_nil_of_length_pos
            rw [List.length_append, List.length_dropLast]
            omega
          · rw [List.head?_append, head?_dropLast_of_two_le _ hL2, hLhead, head?_take_succ]
            obtain ⟨p, t, rfl⟩ : ∃ p t, pts = p :: t := by
              cases pts
              · exact absurd rfl hne
              · exact ⟨_, _, rfl⟩
            rfl
          · rw [List.getLast?_append, hRlast, getLast?_drop_eq pts k (by omega)]
            rw [getLast?_eq_getD pts ⟨0, 0⟩ hne]
            rfl
          · rw [List.length_append, List.length_dropLast]
            omega
      · rw [if_neg hgt]
        obtain ⟨p, t, rfl⟩ : ∃ p t, pts = p :: t := by
          cases pts
          · exact absurd rfl hne
          · exact ⟨_, _, rfl⟩
        refine ⟨by simp, rfl, ?_, fun _ => by simp⟩
        rw [getLast?_eq_getD (p :: t) ⟨0, 0⟩ (by simp)]
        rfl

/-- C6: for every nonempty point sequence and tolerance `t ≥ 0`, the first
and last points of `simplify`'s Douglas-Peucker pass equal the first and
last points of its input. -/
theorem douglasPeucker_preserves_endpoints (pts : List Pt) (tol : ℚ)
    (hne : pts ≠ []) (htol : 0 ≤ tol) :
    (douglasPeucker pts tol).head? = pts.head?
    ∧ (douglasPeucker pts tol).getLast? = pts.getLast? :=
  ⟨(douglasPeuckerF_endpoints pts.length pts tol hne).2.1,
   (douglasPeuckerF_endpoints pts.length pts tol hne).2.2.1⟩

/-- C6 (witness): instantiated on three collinear points with tolerance 1,
where the result is `[(0,0), (2,0)]`. -/
theorem douglasPeucker_preserves_endpoints_witness :
    (([⟨0, 0⟩, ⟨1, 0⟩, ⟨2, 0⟩] : List Pt) ≠ [] ∧ (0 : ℚ) ≤ 1)
    ∧ (douglasPeucker [⟨0, 0⟩, ⟨1, 0⟩, ⟨2, 0⟩] 1).head? = some ⟨0, 0⟩
    ∧ (douglasPeucker [⟨0, 0⟩, ⟨1, 0⟩, ⟨2, 0⟩] 1).getLast? = some ⟨2, 0⟩ := by
  refine ⟨⟨by simp, by norm_num⟩, ?_, ?_⟩
  · exact (douglasPeucker_preserves_endpoints [⟨0, 0⟩, ⟨1, 0⟩, ⟨2, 0⟩] 1 (by simp)
      (by norm_num)).1.trans (by with_unfolding_all rfl)
  · exact (douglasPeucker_preserves_endpoints [⟨0, 0⟩, ⟨1, 0⟩, ⟨2, 0⟩] 1 (by simp)
      (by norm_num)).2.trans (by with_unfolding_all rfl)

/-- A head-anchored path match splits the text into match and rest. -/
theorem pathMatchAt_split {cs m after : List Char}
    (h : pathMatchAt cs = some (m, after)) : cs = m ++ after := by
  unfold pathMatchAt at h
  cases hn : pathMatchLen cs with
  | none =>
    rw [hn] at h
    simp at h
  | some n =>
    rw [hn] at h
    simp only [Option.map_some', Option.some.injEq, Prod.mk.injEq] at h
    obtain ⟨h1, h2⟩ := h
    rw [← h1, ← h2, List.take_append_drop]

theorem scanPathsAux_cons_some {fuel pos : ℕ} {c : Char} {rest m after : List Char}
    (hm : pathMatchAt (c :: rest) = some (m, after)) :
    scanPathsAux (fuel + 1) (c :: rest) pos
      = ((pos, m) :: (scanPathsAux fuel after (pos + m.length)).1,
         (scanPathsAux fuel after (pos + m.length)).2) := by
  rw [scanPathsAux, hm]

theorem scanPathsAux_cons_none {fuel pos : ℕ} {c : Char} {rest : List Char}
    (hm : pathMatchAt (c :: rest) = none) :
    scanPathsAux (fuel + 1) (c :: rest) pos
      = ((scanPathsAux fuel rest (pos + 1)).1,
         c :: (scanPathsAux fuel rest (pos + 1)).2) := by
  rw [scanPathsAux, hm]

/-- The source's right-to-left deletion loop applied to the scan's matches
yields exactly the scan's residual: every match is spliced out. -/
theorem deleteMatches_scanAux :
    ∀ (fuel : ℕ) (cs pre : List Char),
      deleteMatches (scanPathsAux fuel cs pre.length).1 (pre ++ cs)
        = pre ++ (scanPathsAux fuel cs pre.length).2 := by
  intro fuel
  induction fuel with
  | zero =>
    intro cs pre
    cases cs <;> rfl
  | succ fuel ih =>
    intro cs pre
    cases cs with
    | nil => rfl
    | cons c rest =>
      cases hm : pathMatchAt (c :: rest) with
      | some p =>
        obtain ⟨m, after⟩ := p
        have hsplit := pathMatchAt_split hm
        rw [scanPathsAux_cons_some hm]
        have ih' := ih after (pre ++ m)
        rw [List.length_append] at ih'
        simp only [deleteMatches, List.foldr_cons] at ih' ⊢
        rw [hsplit, ← List.append_assoc, ih']
        rw [show (pre ++ m) ++ (scanPathsAux fuel after (pre.length + m.length)).2
            = pre ++ (m ++ (scanPathsAux fuel after (pre.length + m.length)).2) from
          List.append_assoc ..]
        rw [List.take_left, ← List.length_append pre m, ← List.append_assoc, List.drop_left]
      | none =>
        rw [scanPathsAux_cons_none hm]
        have ih' := ih rest (pre ++ [c])
        rw [List.length_append, List.length_cons, List.length_nil] at ih'
        simp only [deleteMatches] at ih' ⊢
        rw [show pre ++ c :: rest = (pre ++ [c]) ++ rest by simp, ih']
        simp

theorem deleteMatches_eq_resid (cs : List Char) :
    deleteMatches (scanPaths cs).1 cs = (scanPaths cs).2 := by
  have h := deleteMatches_scanAux (cs.length + 1) cs []
  simpa [scanPaths] using h

/-- When every match starts at or after position `pos + k`, the first `k`
characters of the scan's residual are the first `k` characters of the text. -/
theorem scanPathsAux_resid_take :
    ∀ (fuel : ℕ) (cs : List Char) (pos k : ℕ),
      (∀ p ∈ (scanPathsAux fuel cs pos).1, pos + k ≤ p.1) →
      (scanPathsAux fuel cs pos).2.take k = cs.take k := by
  intro fuel
  induction fuel with
  | zero =>
    intro cs pos k _
    cases cs <;> rfl
  | succ fuel ih =>
    intro cs pos k h
    cases cs with
    | nil => rfl
    | cons c rest =>
      cases hm : pathMatchAt (c :: rest) with
      | some p =>
        obtain ⟨m, after⟩ := p
        rw [scanPathsAux_cons_some hm] at h ⊢
        have hk : k = 0 := by
          have := h (pos, m) (List.mem_cons_self _ _)
          simp at this
          omega
        subst hk
        rfl
      | none =>
        rw [scanPathsAux_cons_none hm] at h ⊢
        cases k with
        | zero => rfl
        | succ k =>
          simp only [List.take_succ_cons]
          rw [ih rest (pos + 1) k]
          intro p hp
          have := h p hp
          omega

/-- C10 (amended): `mergeSVGPaths` removes every matched path element from
its position (the deletion loop leaves exactly the scan residual). If no
opening `<svg…>` tag matches, nothing is reinserted — the output is the
input with all matched path elements deleted. If a tag matches, the merged
paths (including any path that merged with nothing) are reinserted at
character offset `tagMatch.length` of the deleted text, which is immediately
after the opening tag provided the markup starts with that tag and every
path match begins at or after that offset. -/
theorem mergeSVGPaths_removal_and_insertion (svg : String)
    (hms : (scanPaths svg.data).1 ≠ []) :
    (findSvgTag svg.data = none →
      mergeSVGPaths svg = ⟨deleteMatches (scanPaths svg.data).1 svg.data⟩)
    ∧ (∀ tag, findSvgTag svg.data = some tag →
        svg.data.take tag.length = tag →
        (∀ p ∈ (scanPaths svg.data).1, tag.length ≤ p.1) →
        mergeSVGPaths svg = ⟨tag ++ "\n  ".data
          ++ (((mergedPathsOf svg.data).map PathRec.html).intersperse "\n  ".data).foldr
              (· ++ ·) []
          ++ '\n' :: (deleteMatches (scanPaths svg.data).1 svg.data).drop tag.length⟩) := by
  have hne : svg.data.isEmpty = false := by
    cases hd : svg.data with
    | nil =>
      exfalso
      apply hms
      rw [hd]
      rfl
    | cons a l => rfl
  have hmsb : (scanPaths svg.data).1.isEmpty = false := by
    cases hx : (scanPaths svg.data).1 with
    | nil => exact absurd hx hms
    | cons a l => rfl
  constructor
  · intro htag
    simp only [mergeSVGPaths, hne, hmsb, htag, Bool.false_eq_true, if_false]
  · intro tag htag htake hidx
    have hresid := deleteMatches_eq_resid svg.data
    have htk : (deleteMatches (scanPaths svg.data).1 svg.data).take tag.length = tag := by
      rw [hresid]
      have h0 := scanPathsAux_resid_take (svg.data.length + 1) svg.data 0 tag.length
        (by simpa using hidx)
      rw [show (scanPaths svg.data).2 = (scanPathsAux (svg.data.length + 1) svg.data 0).2
        from rfl, h0]
      exact htake
    simp only [mergeSVGPaths, hne, hmsb, htag, Bool.false_eq_true, if_false]
    rw [htk]

/-- C10 (witness): conjunct 1 at markup with a path element and no `<svg>`
tag (the element is removed, output empty); conjunct 2 at markup that starts
with its `<svg>` tag (the lone unmerged path element is relocated to
immediately after the tag). -/
theorem mergeSVGPaths_removal_and_insertion_witness :
    ((scanPaths ("<path a=\"b\"/>" : String).data).1 ≠ []
      ∧ findSvgTag ("<path a=\"b\"/>" : String).data = none
      ∧ mergeSVGPaths "<path a=\"b\"/>" = "")
    ∧ ((scanPaths ("<svg><path a=\"b\"/></svg>" : String).data).1 ≠ []
      ∧ mergeSVGPaths "<svg><path a=\"b\"/></svg>"
          = "<svg>\n  <path a=\"b\"/>\n</svg>") := by
  constructor
  · refine ⟨by with_unfolding_all decide, by with_unfolding_all rfl, ?_⟩
    have h := (mergeSVGPaths_removal_and_insertion "<path a=\"b\"/>"
      (by with_unfolding_all decide)).1 (by with_unfolding_all rfl)
    rw [h]
    with_unfolding_all rfl
  · refine ⟨by with_unfolding_all decide, ?_⟩
    have h := (mergeSVGPaths_removal_and_insertion "<svg><path a=\"b\"/></svg>"
      (by with_unfolding_all decide)).2 "<svg>".data (by with_unfolding_all rfl)
      (by with_unfolding_all rfl) (by with_unfolding_all decide)
    rw [h]
    with_unfolding_all rfl

end ImgToSvg
